import Mathlib

/-!
Verification development for the cycling-routes repository.

Shallow embedding of the Elevation & Geospatial Analysis Engine:
`src/elevation_utils.py` (moving_average_filter, distance_based_smoothing,
haversine_distance, calculate_elevation_gain, calculate_leaflet_elevation_ascent,
_calculate_gain_with_threshold, process_gpx_for_elevation) and `src/app.py`
(haversine, get_cafes_near_route, determine_start_location, calculate_difficulty).

Python floats are modelled by exact arithmetic: over an arbitrary linear ordered
field for the purely order/arithmetic functions, and over `ℝ` for the functions
involving trigonometry.  A Python function that can raise is modelled with
`Except`.
-/

namespace CyclingRoutes

/-! ## Index-window moving average (`src/elevation_utils.py`, lines 3-19)

`moving_average_filter(elevations, window_size)`.  The `window_size` parameter
is an `int` used with non-negative values only (the callers pass 3 and 1, the
spec requires `index_window > 0`); it is modelled as `ℕ`, so Python's
`max(0, i - half_window)` is natural-number truncated subtraction and the slice
`elevations[start:end]` (with `0 ≤ start`, `end ≤ len`) is `(drop start).take
(end - start)`. -/
def moving_average_filter {α : Type} [LinearOrderedField α]
    (elevations : List α) (window_size : ℕ) : List α :=
  if elevations.length < window_size then elevations
  else
    let half_window := window_size / 2
    (List.range elevations.length).map (fun i =>
      let start := i - half_window
      let stop := min elevations.length (i + half_window + 1)
      let window_values := (elevations.drop start).take (stop - start)
      window_values.sum / (window_values.length : α))

/-! ## Threshold accumulator (`src/elevation_utils.py`, lines 164-191) -/

/-- One iteration of the loop body of `_calculate_gain_with_threshold`:
state is `(total_gain, accumulated_change)`, input is
`change = elevations[i] - elevations[i-1]`. -/
def gainStep {α : Type} [LinearOrderedField α] (threshold : α)
    (s : α × α) (change : α) : α × α :=
  if threshold ≤ s.2 + change then (s.1 + (s.2 + change), 0)
  else if s.2 + change < -threshold then (s.1, 0)
  else (s.1, s.2 + change)

/-- `_calculate_gain_with_threshold(elevations, threshold)`: hysteresis
accumulation of consecutive elevation deltas, with the final
`max(0.0, total_gain)` of the source. -/
def _calculate_gain_with_threshold {α : Type} [LinearOrderedField α]
    (elevations : List α) (threshold : α) : α :=
  if elevations.length < 2 then 0
  else
    let changes := (elevations.zip elevations.tail).map (fun p => p.2 - p.1)
    let s := changes.foldl (gainStep threshold) (0, 0)
    let total_gain := if 0 < s.2 then s.1 + s.2 else s.1
    max 0 total_gain

/-- Threshold Accumulator as worded by the spec (§4.3): running signed
accumulator; commit on reaching `+threshold`, discard below `-threshold`,
add a positive remainder at the end; sequences shorter than 2 yield 0.
(The spec's wording has no final clamp to 0.) -/
def threshold_accumulator_spec {α : Type} [LinearOrderedField α]
    (elevations : List α) (threshold : α) : α :=
  if elevations.length < 2 then 0
  else
    let deltas := (elevations.zip elevations.tail).map (fun p => p.2 - p.1)
    let s := deltas.foldl (fun (s : α × α) d =>
      if threshold ≤ s.2 + d then (s.1 + (s.2 + d), 0)
      else if s.2 + d < -threshold then (s.1, 0)
      else (s.1, s.2 + d)) (0, 0)
    if 0 < s.2 then s.1 + s.2 else s.1

/-! ## Leaflet-elevation ascent (`src/elevation_utils.py`, lines 138-162) -/

/-- `calculate_leaflet_elevation_ascent(elevations)`: sum of the positive
consecutive elevation differences. -/
def calculate_leaflet_elevation_ascent {α : Type} [LinearOrderedField α]
    (elevations : List α) : α :=
  if elevations.length < 2 then 0
  else
    ((elevations.zip elevations.tail).map (fun p => p.2 - p.1)).foldl
      (fun total dz => if 0 < dz then total + dz else total) 0

/-! ## Difficulty classifier (`src/app.py`, lines 213-234) -/

/-- `calculate_difficulty(distance_km, elevation_gain_m)`. -/
def calculate_difficulty {α : Type} [LinearOrderedField α]
    (distance_km elevation_gain_m : α) : String :=
  if distance_km < 30 ∧ elevation_gain_m < 300 then "Easy"
  else if 30 ≤ distance_km ∧ distance_km ≤ 70 ∧ 300 ≤ elevation_gain_m ∧ elevation_gain_m ≤ 1000 then "Moderate"
  else if 70 < distance_km ∧ distance_km ≤ 100 ∧ 1000 < elevation_gain_m ∧ elevation_gain_m ≤ 2000 then "Hard"
  else if 100 < distance_km ∧ 2000 < elevation_gain_m then "Very Hard"
  else
    if 100 < distance_km ∨ 2000 < elevation_gain_m then "Very Hard"
    else if 70 < distance_km ∨ 1000 < elevation_gain_m then "Hard"
    else if 30 < distance_km ∨ 300 < elevation_gain_m then "Moderate"
    else "Easy"

/-! ## Band lemmas for the difficulty classifier -/

variable {α : Type} [LinearOrderedField α]

lemma diff_easy_band (d g : α) (h : d < 30 ∧ g < 300) :
    calculate_difficulty d g = "Easy" := by
  simp only [calculate_difficulty, if_pos h]

lemma diff_moderate_band (d g : α) (h : 30 ≤ d ∧ d ≤ 70 ∧ 300 ≤ g ∧ g ≤ 1000) :
    calculate_difficulty d g = "Moderate" := by
  simp only [calculate_difficulty]
  rw [if_neg (fun p => absurd h.1 (not_le.mpr p.1)), if_pos h]

lemma diff_hard_band (d g : α) (h : 70 < d ∧ d ≤ 100 ∧ 1000 < g ∧ g ≤ 2000) :
    calculate_difficulty d g = "Hard" := by
  simp only [calculate_difficulty]
  rw [if_neg (fun p => absurd p.1 (not_lt.mpr (le_of_lt (lt_trans (by norm_num) h.1)))),
      if_neg (fun p => absurd p.2.1 (not_le.mpr h.1)), if_pos h]

lemma diff_vh_band (d g : α) (h : 100 < d ∧ 2000 < g) :
    calculate_difficulty d g = "Very Hard" := by
  simp only [calculate_difficulty]
  rw [if_neg (fun p => absurd p.1 (not_lt.mpr (le_of_lt (lt_trans (by norm_num) h.1)))),
      if_neg (fun p => absurd p.2.1 (not_le.mpr (lt_trans (by norm_num) h.1))),
      if_neg (fun p => absurd p.2.2.2 (not_le.mpr h.2)), if_pos h]

lemma diff_fallback (d g : α) (h1 : ¬(d < 30 ∧ g < 300))
    (h2 : ¬(30 ≤ d ∧ d ≤ 70 ∧ 300 ≤ g ∧ g ≤ 1000))
    (h3 : ¬(70 < d ∧ d ≤ 100 ∧ 1000 < g ∧ g ≤ 2000)) (h4 : ¬(100 < d ∧ 2000 < g)) :
    ((100 < d ∨ 2000 < g) → calculate_difficulty d g = "Very Hard") ∧
    (¬(100 < d ∨ 2000 < g) → (70 < d ∨ 1000 < g) → calculate_difficulty d g = "Hard") ∧
    (¬(100 < d ∨ 2000 < g) → ¬(70 < d ∨ 1000 < g) → (30 < d ∨ 300 < g) →
      calculate_difficulty d g = "Moderate") ∧
    (¬(100 < d ∨ 2000 < g) → ¬(70 < d ∨ 1000 < g) → ¬(30 < d ∨ 300 < g) →
      calculate_difficulty d g = "Easy") := by
  refine ⟨fun h => ?_, fun h h' => ?_, fun h h' h'' => ?_, fun h h' h'' => ?_⟩ <;>
    simp only [calculate_difficulty] <;>
    rw [if_neg h1, if_neg h2, if_neg h3, if_neg h4]
  · rw [if_pos h]
  · rw [if_neg h, if_pos h']
  · rw [if_neg h, if_neg h', if_pos h'']
  · rw [if_neg h, if_neg h', if_neg h'']

/-- C2: `calculate_difficulty` returns the exact band label when distance and
gain agree on a band, and otherwise falls back to the first matching
OR-condition in priority order (Very Hard, Hard, Moderate, Easy); in
particular `(50, 500) ↦ "Moderate"` and `(150, 100) ↦ "Very Hard"`. -/
theorem claim_C2 :
    (∀ {α : Type} [LinearOrderedField α] (d g : α), 0 ≤ d → 0 ≤ g →
      ((d < 30 ∧ g < 300) → calculate_difficulty d g = "Easy") ∧
      ((30 ≤ d ∧ d ≤ 70 ∧ 300 ≤ g ∧ g ≤ 1000) → calculate_difficulty d g = "Moderate") ∧
      ((70 < d ∧ d ≤ 100 ∧ 1000 < g ∧ g ≤ 2000) → calculate_difficulty d g = "Hard") ∧
      ((100 < d ∧ 2000 < g) → calculate_difficulty d g = "Very Hard") ∧
      (¬(d < 30 ∧ g < 300) → ¬(30 ≤ d ∧ d ≤ 70 ∧ 300 ≤ g ∧ g ≤ 1000) →
       ¬(70 < d ∧ d ≤ 100 ∧ 1000 < g ∧ g ≤ 2000) → ¬(100 < d ∧ 2000 < g) →
        ((100 < d ∨ 2000 < g) → calculate_difficulty d g = "Very Hard") ∧
        (¬(100 < d ∨ 2000 < g) → (70 < d ∨ 1000 < g) → calculate_difficulty d g = "Hard") ∧
        (¬(100 < d ∨ 2000 < g) → ¬(70 < d ∨ 1000 < g) → (30 < d ∨ 300 < g) →
          calculate_difficulty d g = "Moderate") ∧
        (¬(100 < d ∨ 2000 < g) → ¬(70 < d ∨ 1000 < g) → ¬(30 < d ∨ 300 < g) →
          calculate_difficulty d g = "Easy"))) ∧
    calculate_difficulty (50 : ℚ) 500 = "Moderate" ∧
    calculate_difficulty (150 : ℚ) 100 = "Very Hard" := by
  refine ⟨fun d g _ _ => ?_, by decide, by decide⟩
  exact ⟨diff_easy_band d g, diff_moderate_band d g, diff_hard_band d g, diff_vh_band d g,
    diff_fallback d g⟩

/-- Witness for C2: concrete non-negative inputs discharging the hypotheses. -/
theorem claim_C2_witness :
    (0 : ℚ) ≤ 50 ∧ (0 : ℚ) ≤ 500 ∧ calculate_difficulty (50 : ℚ) 500 = "Moderate" :=
  ⟨by norm_num, by norm_num,
    (claim_C2.1 (50 : ℚ) 500 (by norm_num) (by norm_num)).2.1 (by norm_num)⟩

/-! ## Moving-average filter lemmas -/

lemma maf_window_one (l : List α) : moving_average_filter l 1 = l := by
  rw [moving_average_filter]
  split_ifs with h
  · rfl
  · apply List.ext_getElem
    · simp
    · intro i h1 h2
      simp only [List.getElem_map, List.getElem_range, List.length_map, List.length_range] at h1 ⊢
      have hstart : i - 1 / 2 = i := by omega
      have hstop : min l.length (i + 1 / 2 + 1) = i + 1 := by omega
      rw [hstart, hstop, List.drop_eq_getElem_cons h1]
      have hone : i + 1 - i = 1 := by omega
      rw [hone]
      have htake : List.take 1 (l[i] :: List.drop (i + 1) l) = [l[i]] := rfl
      rw [htake]
      simp

lemma maf_length (l : List α) (w : ℕ) :
    (moving_average_filter l w).length = l.length := by
  rw [moving_average_filter]
  split_ifs <;> simp

/-- C8: window size 1 is the identity, inputs shorter than the window are
returned unchanged, and the output always has the input's length. -/
theorem claim_C8 (l : List ℚ) (w : ℕ) :
    moving_average_filter l 1 = l ∧
    (l.length < w → moving_average_filter l w = l) ∧
    (moving_average_filter l w).length = l.length :=
  ⟨maf_window_one l, fun h => by rw [moving_average_filter, if_pos h], maf_length l w⟩

/-- Witness for C8: a two-element sequence is shorter than window 5 and is
returned unchanged. -/
theorem claim_C8_witness :
    [(1 : ℚ), 2].length < 5 ∧ moving_average_filter [(1 : ℚ), 2] 5 = [1, 2] :=
  ⟨by norm_num, (claim_C8 [(1 : ℚ), 2] 5).2.1 (by norm_num)⟩

/-! ## Threshold accumulator lemmas -/

lemma gainFold_fst_nonneg (t : α) (ht : 0 ≤ t) (ds : List α) :
    ∀ s : α × α, 0 ≤ s.1 → 0 ≤ (ds.foldl (gainStep t) s).1 := by
  induction ds with
  | nil => exact fun s hs => hs
  | cons d ds ih =>
      intro s hs
      refine ih (gainStep t s d) ?_
      rw [gainStep]
      split_ifs with h1 h2
      · exact add_nonneg hs (le_trans ht h1)
      · exact hs
      · exact hs

/-- For positive deltas and threshold 0, every step commits immediately and the
accumulator stays at 0. -/
lemma gainFold_zero_of_pos (ds : List α) (hpos : ∀ d ∈ ds, 0 < d) :
    ∀ total : α, ds.foldl (gainStep 0) (total, 0) = (total + ds.sum, 0) := by
  induction ds with
  | nil => intro total; simp
  | cons d ds ih =>
      intro total
      have hd : 0 < d := hpos d (by simp)
      have hstep : gainStep (0 : α) (total, 0) d = (total + d, 0) := by
        rw [gainStep]
        simp only [zero_add]
        rw [if_pos (le_of_lt hd)]
      rw [List.foldl_cons, hstep, ih (fun d hd => hpos d (by simp [hd])) (total + d)]
      simp [add_assoc]

lemma zip_tail_of_chain {β : Type} {r : β → β → Prop} :
    ∀ l : List β, l.Chain' r → ∀ p ∈ l.zip l.tail, r p.1 p.2 := by
  intro l
  induction l with
  | nil => intro _ p hp; simp at hp
  | cons x xs ih =>
      intro hc p hp
      cases xs with
      | nil => simp at hp
      | cons y ys =>
          simp only [List.tail_cons, List.zip_cons_cons] at hp
          rw [List.mem_cons] at hp
          rcases hp with hpeq | hp
          · subst hpeq
            exact (List.chain'_cons.mp hc).1
          · exact ih (List.chain'_cons.mp hc).2 p (by simpa using hp)

lemma deltas_telescope :
    ∀ (x : α) (xs : List α),
      (((x :: xs).zip xs).map (fun p => p.2 - p.1)).sum =
        (x :: xs).getLast (List.cons_ne_nil x xs) - x := by
  intro x xs
  induction xs generalizing x with
  | nil => simp
  | cons y ys ih =>
      simp only [List.zip_cons_cons, List.map_cons, List.sum_cons]
      rw [List.getLast_cons (List.cons_ne_nil y ys), ih y]
      ring

/-- C3: with a non-negative threshold the source function agrees with the
spec's hysteresis description, and on a strictly increasing sequence with
threshold 0 the gain is exactly the total rise (last minus first element). -/
theorem claim_C3 :
    (∀ (l : List ℚ) (t : ℚ), 0 ≤ t →
      _calculate_gain_with_threshold l t = threshold_accumulator_spec l t) ∧
    (∀ (x : ℚ) (xs : List ℚ), (x :: xs).Chain' (· < ·) →
      _calculate_gain_with_threshold (x :: xs) 0 =
        (x :: xs).getLast (List.cons_ne_nil x xs) - x) := by
  constructor
  · intro l t ht
    rw [_calculate_gain_with_threshold, threshold_accumulator_spec]
    split_ifs with h
    · rfl
    · dsimp only
      have hfold : 0 ≤ (((l.zip l.tail).map (fun p => p.2 - p.1)).foldl
          (gainStep t) ((0 : ℚ), (0 : ℚ))).1 :=
        gainFold_fst_nonneg t ht _ (0, 0) le_rfl
      have hbody : ((l.zip l.tail).map (fun p => p.2 - p.1)).foldl
          (fun (s : ℚ × ℚ) d =>
            if t ≤ s.2 + d then (s.1 + (s.2 + d), 0)
            else if s.2 + d < -t then (s.1, 0)
            else (s.1, s.2 + d)) ((0 : ℚ), (0 : ℚ)) =
          ((l.zip l.tail).map (fun p => p.2 - p.1)).foldl (gainStep t) ((0 : ℚ), (0 : ℚ)) := rfl
      rw [hbody]
      split_ifs with hpos
      · exact max_eq_right (add_nonneg hfold (le_of_lt hpos))
      · exact max_eq_right hfold
  · intro x xs hchain
    rw [_calculate_gain_with_threshold]
    cases xs with
    | nil => simp
    | cons y ys =>
        have hlen : ¬(x :: y :: ys).length < 2 := by simp
        rw [if_neg hlen]
        dsimp only [List.tail_cons]
        have hpos : ∀ d ∈ ((x :: y :: ys).zip (y :: ys)).map (fun p => p.2 - p.1), 0 < d := by
          intro d hd
          obtain ⟨p, hp, rfl⟩ := List.mem_map.mp hd
          have := zip_tail_of_chain (x :: y :: ys) hchain p (by simpa using hp)
          exact sub_pos.mpr this
        have hsum : (0 : ℚ) ≤ (((x :: y :: ys).zip (y :: ys)).map (fun p => p.2 - p.1)).sum :=
          List.sum_nonneg (fun d hd => le_of_lt (hpos d hd))
        have hfold := gainFold_zero_of_pos _ hpos (0 : ℚ)
        rw [hfold]
        dsimp only
        rw [if_neg (lt_irrefl 0), zero_add, deltas_telescope x (y :: ys)]
        rw [deltas_telescope x (y :: ys)] at hsum
        exact max_eq_right hsum

/-- Witness for C3: both parts applied at concrete inputs. -/
theorem claim_C3_witness :
    (0 : ℚ) ≤ 1 ∧
    _calculate_gain_with_threshold [(0 : ℚ), 3, 1] 1 =
      threshold_accumulator_spec [(0 : ℚ), 3, 1] 1 ∧
    _calculate_gain_with_threshold [(5 : ℚ), 7, 10] 0 = 5 :=
  ⟨by norm_num, claim_C3.1 [(0 : ℚ), 3, 1] 1 (by norm_num), by
    have hch : [(5 : ℚ), 7, 10].Chain' (· < ·) :=
      List.chain'_cons.mpr ⟨by norm_num,
        List.chain'_cons.mpr ⟨by norm_num, List.chain'_singleton _⟩⟩
    have h := claim_C3.2 (5 : ℚ) [7, 10] hch
    have hlast : ([(5 : ℚ), 7, 10].getLast (List.cons_ne_nil 5 [7, 10])) = 10 := rfl
    rw [hlast] at h
    norm_num at h
    exact h⟩

/-! ## Great-circle geometry

Python's `math.radians`, `math.atan2`, `math.sin`, `math.cos`, `math.sqrt` on
IEEE doubles are modelled by their exact real counterparts. -/

/-- `math.radians(x) = x * pi / 180`. -/
noncomputable def radians (x : ℝ) : ℝ := x * Real.pi / 180

/-- Four-quadrant arctangent `math.atan2(y, x)` (signed zeros are not
modelled; both uses in the sources have `y ≥ 0`, `x ≥ 0`). -/
noncomputable def atan2 (y x : ℝ) : ℝ :=
  if 0 < x then Real.arctan (y / x)
  else if x < 0 then
    (if 0 ≤ y then Real.arctan (y / x) + Real.pi else Real.arctan (y / x) - Real.pi)
  else
    (if 0 < y then Real.pi / 2 else if y < 0 then -(Real.pi / 2) else 0)

/-- Haversine term `a` shared by both implementations:
`sin(Δlat/2)^2 + cos(lat1) cos(lat2) sin(Δlon/2)^2` (all in radians). -/
noncomputable def havA (lat1 lon1 lat2 lon2 : ℝ) : ℝ :=
  Real.sin (radians (lat2 - lat1) / 2) ^ 2 +
    Real.cos (radians lat1) * Real.cos (radians lat2) *
      Real.sin (radians (lon2 - lon1) / 2) ^ 2

/-- `haversine_distance(lat1, lon1, lat2, lon2)` from
`src/elevation_utils.py`, lines 65-79 (Earth radius 6,371,000 m,
`c = 2 * atan2(sqrt(a), sqrt(1 - a))`, result `R * c`). -/
noncomputable def haversine_distance (lat1 lon1 lat2 lon2 : ℝ) : ℝ :=
  6371000 *
    (2 * atan2 (Real.sqrt (havA lat1 lon1 lat2 lon2))
      (Real.sqrt (1 - havA lat1 lon1 lat2 lon2)))

/-- `haversine(lat1, lon1, lat2, lon2)` from `src/app.py`, lines 141-149:
same formula, written `2 * EARTH_RADIUS_M * atan2(...)`. -/
noncomputable def haversine (lat1 lon1 lat2 lon2 : ℝ) : ℝ :=
  2 * 6371000 *
    atan2 (Real.sqrt (havA lat1 lon1 lat2 lon2))
      (Real.sqrt (1 - havA lat1 lon1 lat2 lon2))

lemma haversine_eq_haversine_distance (lat1 lon1 lat2 lon2 : ℝ) :
    haversine lat1 lon1 lat2 lon2 = haversine_distance lat1 lon1 lat2 lon2 := by
  rw [haversine, haversine_distance]; ring

lemma arctan_nonneg_of_nonneg {x : ℝ} (hx : 0 ≤ x) : 0 ≤ Real.arctan x := by
  rw [← Real.arctan_zero]
  exact Real.arctan_strictMono.monotone hx

lemma atan2_nonneg {y x : ℝ} (hy : 0 ≤ y) (hx : 0 ≤ x) : 0 ≤ atan2 y x := by
  rw [atan2]
  split_ifs with h1 h2 h3 h4
  all_goals first
    | exact arctan_nonneg_of_nonneg (div_nonneg hy (le_of_lt h1))
    | (exfalso; exact absurd ‹x < 0› (not_lt.mpr hx))
    | (exfalso; exact absurd ‹y < 0› (not_lt.mpr hy))
    | (have hp := Real.pi_pos; linarith)

lemma haversine_distance_nonneg (lat1 lon1 lat2 lon2 : ℝ) :
    0 ≤ haversine_distance lat1 lon1 lat2 lon2 := by
  rw [haversine_distance]
  have h := atan2_nonneg (Real.sqrt_nonneg (havA lat1 lon1 lat2 lon2))
    (Real.sqrt_nonneg (1 - havA lat1 lon1 lat2 lon2))
  positivity

lemma haversine_nonneg (lat1 lon1 lat2 lon2 : ℝ) :
    0 ≤ haversine lat1 lon1 lat2 lon2 := by
  rw [haversine_eq_haversine_distance]
  exact haversine_distance_nonneg lat1 lon1 lat2 lon2

lemma havA_self (lat lon : ℝ) : havA lat lon lat lon = 0 := by
  rw [havA]
  simp [radians]

lemma haversine_distance_self (lat lon : ℝ) : haversine_distance lat lon lat lon = 0 := by
  rw [haversine_distance, havA_self]
  rw [Real.sqrt_zero, atan2]
  rw [if_pos (by rw [sub_zero, Real.sqrt_one]; norm_num)]
  simp

lemma haversine_self (lat lon : ℝ) : haversine lat lon lat lon = 0 := by
  rw [haversine_eq_haversine_distance]; exact haversine_distance_self lat lon

/-! ## Quantitative lower bound: haversine from (0,0) to a mid-latitude anchor -/

lemma tan_small : Real.tan 0.001 < 0.3 := by
  have hsin : Real.sin 0.001 < 0.001 := Real.sin_lt (by norm_num)
  have hcos : (0.999 : ℝ) ≤ Real.cos 0.001 := by
    have h : 1 - (0.001 : ℝ) ^ 2 / 2 ≤ Real.cos 0.001 := Real.one_sub_sq_div_two_le_cos
    nlinarith
  have hsin0 : 0 ≤ Real.sin 0.001 :=
    Real.sin_nonneg_of_nonneg_of_le_pi (by norm_num) (by nlinarith [Real.pi_gt_d6])
  rw [Real.tan_eq_sin_div_cos]
  have : Real.sin 0.001 / Real.cos 0.001 ≤ 0.001 / 0.999 := by
    apply div_le_div₀ (by norm_num) (le_of_lt hsin) (by norm_num) hcos
  nlinarith

lemma arctan_ge_milli (t : ℝ) (ht : 0.3 ≤ t) : 0.001 < Real.arctan t := by
  have hb1 : -(Real.pi / 2) < (0.001 : ℝ) := by nlinarith [Real.pi_gt_d6]
  have hb2 : (0.001 : ℝ) < Real.pi / 2 := by nlinarith [Real.pi_gt_d6]
  have := Real.arctan_tan hb1 hb2
  calc (0.001 : ℝ) = Real.arctan (Real.tan 0.001) := this.symm
    _ < Real.arctan t := Real.arctan_strictMono (lt_of_lt_of_le tan_small ht)

/-- Any anchor with latitude in [38, 53] is farther than 10 km (indeed more
than 12.7 km) from the point (0, 0), whatever its longitude. -/
lemma haversine_origin_gt (lat lon : ℝ) (hlo : 38 ≤ lat) (hhi : lat ≤ 53) :
    10000 < haversine 0 0 lat lon := by
  have hpi1 := Real.pi_gt_d6
  have hpi2 := Real.pi_lt_d6
  have hpipos := Real.pi_pos
  set d := radians (lat - 0) / 2 with hd
  have hdval : d = lat * Real.pi / 360 := by rw [hd, radians]; ring
  have hdlo : 0.331 ≤ d := by rw [hdval]; nlinarith
  have hdhi : d ≤ 0.463 := by rw [hdval]; nlinarith
  have hsin : 0.3 < Real.sin d := by
    have h1 : d - d ^ 3 / 4 < Real.sin d := Real.sin_gt_sub_cube (by linarith) (by linarith)
    have hcube : d ^ 3 ≤ 0.463 ^ 3 := by
      apply pow_le_pow_left₀ (by linarith) hdhi
    nlinarith
  have hsin0 : 0 ≤ Real.sin d := by linarith
  have hcos2 : 0 ≤ Real.cos (radians lat) := by
    apply Real.cos_nonneg_of_mem_Icc
    constructor
    · rw [radians]; nlinarith
    · rw [radians]; nlinarith
  have hA : Real.sin d ^ 2 ≤ havA 0 0 lat lon := by
    rw [havA]
    have h2 : 0 ≤ Real.cos (radians 0) * Real.cos (radians lat) *
        Real.sin (radians (lon - 0) / 2) ^ 2 := by
      have : radians 0 = 0 := by rw [radians]; ring
      rw [this, Real.cos_zero, one_mul]
      positivity
    rw [← hd]
    nlinarith [sq_nonneg (Real.sin (radians (lon - 0) / 2))]
  have hA0 : 0 ≤ havA 0 0 lat lon := le_trans (sq_nonneg _) hA
  have hsqrtA : 0.3 < Real.sqrt (havA 0 0 lat lon) := by
    have : Real.sin d ≤ Real.sqrt (havA 0 0 lat lon) :=
      (Real.le_sqrt hsin0 hA0).mpr hA
    linarith
  have hsqrt1 : Real.sqrt (1 - havA 0 0 lat lon) ≤ 1 := by
    calc Real.sqrt (1 - havA 0 0 lat lon) ≤ Real.sqrt 1 :=
          Real.sqrt_le_sqrt (by linarith)
      _ = 1 := Real.sqrt_one
  rw [haversine]
  rcases lt_or_eq_of_le (Real.sqrt_nonneg (1 - havA 0 0 lat lon)) with hx | hx
  · have hratio : Real.sqrt (havA 0 0 lat lon) ≤
        Real.sqrt (havA 0 0 lat lon) / Real.sqrt (1 - havA 0 0 lat lon) := by
      rw [le_div_iff₀ hx]
      exact mul_le_of_le_one_right (by linarith) hsqrt1
    have harct := arctan_ge_milli (Real.sqrt (havA 0 0 lat lon) /
        Real.sqrt (1 - havA 0 0 lat lon)) (by linarith)
    rw [atan2, if_pos hx]
    nlinarith
  · rw [atan2, ← hx]
    rw [if_neg (lt_irrefl 0), if_neg (lt_irrefl 0), if_pos (by linarith)]
    nlinarith

/-! ## Location classifier (`src/app.py`, lines 194-211, constants lines 24-31) -/

def CAMPUS : ℝ × ℝ := (52.3813, -1.5616)

def LEAMINGTON : ℝ × ℝ := (52.2922, -1.5354)

def CALPE : ℝ × ℝ := (38.6425, 0.0422)

def UNKNOWN_LOCATION_THRESHOLD_M : ℝ := 10000

/-- `determine_start_location(first_point)`: `None` models a missing first
point (Python falsiness of the argument); `min(d_campus, d_leam, d_calpe)`
is `min d_campus (min d_leam d_calpe)`. -/
noncomputable def determine_start_location : Option (ℝ × ℝ) → String
  | none => "Unknown"
  | some first_point =>
      if UNKNOWN_LOCATION_THRESHOLD_M <
          min (haversine first_point.1 first_point.2 CAMPUS.1 CAMPUS.2)
            (min (haversine first_point.1 first_point.2 LEAMINGTON.1 LEAMINGTON.2)
              (haversine first_point.1 first_point.2 CALPE.1 CALPE.2)) then "Other"
      else if haversine first_point.1 first_point.2 CAMPUS.1 CAMPUS.2 =
          min (haversine first_point.1 first_point.2 CAMPUS.1 CAMPUS.2)
            (min (haversine first_point.1 first_point.2 LEAMINGTON.1 LEAMINGTON.2)
              (haversine first_point.1 first_point.2 CALPE.1 CALPE.2)) then "Campus"
      else if haversine first_point.1 first_point.2 LEAMINGTON.1 LEAMINGTON.2 =
          min (haversine first_point.1 first_point.2 CAMPUS.1 CAMPUS.2)
            (min (haversine first_point.1 first_point.2 LEAMINGTON.1 LEAMINGTON.2)
              (haversine first_point.1 first_point.2 CALPE.1 CALPE.2)) then "Leamington"
      else "Calpe"

/-- C6: `determine_start_location` returns "Unknown" with no first point,
"Other" when the nearest anchor is beyond 10,000 m, and otherwise the name of
the nearest anchor with ties resolved in evaluation order (Campus, Leamington,
Calpe); a first point at Campus's coordinates gives "Campus" and (0,0) gives
"Other". -/
theorem claim_C6 :
    determine_start_location none = "Unknown" ∧
    (∀ fp : ℝ × ℝ,
      (UNKNOWN_LOCATION_THRESHOLD_M <
          min (haversine fp.1 fp.2 CAMPUS.1 CAMPUS.2)
            (min (haversine fp.1 fp.2 LEAMINGTON.1 LEAMINGTON.2)
              (haversine fp.1 fp.2 CALPE.1 CALPE.2)) →
        determine_start_location (some fp) = "Other") ∧
      (¬ UNKNOWN_LOCATION_THRESHOLD_M <
          min (haversine fp.1 fp.2 CAMPUS.1 CAMPUS.2)
            (min (haversine fp.1 fp.2 LEAMINGTON.1 LEAMINGTON.2)
              (haversine fp.1 fp.2 CALPE.1 CALPE.2)) →
        (haversine fp.1 fp.2 CAMPUS.1 CAMPUS.2 =
            min (haversine fp.1 fp.2 CAMPUS.1 CAMPUS.2)
              (min (haversine fp.1 fp.2 LEAMINGTON.1 LEAMINGTON.2)
                (haversine fp.1 fp.2 CALPE.1 CALPE.2)) →
          determine_start_location (some fp) = "Campus") ∧
        (haversine fp.1 fp.2 CAMPUS.1 CAMPUS.2 ≠
            min (haversine fp.1 fp.2 CAMPUS.1 CAMPUS.2)
              (min (haversine fp.1 fp.2 LEAMINGTON.1 LEAMINGTON.2)
                (haversine fp.1 fp.2 CALPE.1 CALPE.2)) →
          haversine fp.1 fp.2 LEAMINGTON.1 LEAMINGTON.2 =
            min (haversine fp.1 fp.2 CAMPUS.1 CAMPUS.2)
              (min (haversine fp.1 fp.2 LEAMINGTON.1 LEAMINGTON.2)
                (haversine fp.1 fp.2 CALPE.1 CALPE.2)) →
          determine_start_location (some fp) = "Leamington") ∧
        (haversine fp.1 fp.2 CAMPUS.1 CAMPUS.2 ≠
            min (haversine fp.1 fp.2 CAMPUS.1 CAMPUS.2)
              (min (haversine fp.1 fp.2 LEAMINGTON.1 LEAMINGTON.2)
                (haversine fp.1 fp.2 CALPE.1 CALPE.2)) →
          haversine fp.1 fp.2 LEAMINGTON.1 LEAMINGTON.2 ≠
            min (haversine fp.1 fp.2 CAMPUS.1 CAMPUS.2)
              (min (haversine fp.1 fp.2 LEAMINGTON.1 LEAMINGTON.2)
                (haversine fp.1 fp.2 CALPE.1 CALPE.2)) →
          determine_start_location (some fp) = "Calpe" ∧
            haversine fp.1 fp.2 CALPE.1 CALPE.2 =
              min (haversine fp.1 fp.2 CAMPUS.1 CAMPUS.2)
                (min (haversine fp.1 fp.2 LEAMINGTON.1 LEAMINGTON.2)
                  (haversine fp.1 fp.2 CALPE.1 CALPE.2))))) ∧
    determine_start_location (some (52.3813, -1.5616)) = "Campus" ∧
    determine_start_location (some (0, 0)) = "Other" := by
  refine ⟨rfl, fun fp => ⟨?_, fun hth => ⟨?_, ?_, ?_⟩⟩, ?_, ?_⟩
  · intro h
    simp only [determine_start_location]
    rw [if_pos h]
  · intro h1
    simp only [determine_start_location]
    rw [if_neg hth, if_pos h1]
  · intro h1 h2
    simp only [determine_start_location]
    rw [if_neg hth, if_neg h1, if_pos h2]
  · intro h1 h2
    refine ⟨?_, ?_⟩
    · simp only [determine_start_location]
      rw [if_neg hth, if_neg h1, if_neg h2]
    · rcases min_choice (haversine fp.1 fp.2 CAMPUS.1 CAMPUS.2)
        (min (haversine fp.1 fp.2 LEAMINGTON.1 LEAMINGTON.2)
          (haversine fp.1 fp.2 CALPE.1 CALPE.2)) with hm | hm
      · exact absurd hm.symm h1
      · rcases min_choice (haversine fp.1 fp.2 LEAMINGTON.1 LEAMINGTON.2)
          (haversine fp.1 fp.2 CALPE.1 CALPE.2) with hm2 | hm2
        · exact absurd (hm.trans hm2).symm h2
        · exact (hm.trans hm2).symm
  · -- first point at Campus's coordinates
    have hd1 : haversine (52.3813 : ℝ) (-1.5616) CAMPUS.1 CAMPUS.2 = 0 := by
      rw [CAMPUS]
      exact haversine_self 52.3813 (-1.5616)
    simp only [determine_start_location]
    have h2 : (0 : ℝ) ≤ haversine 52.3813 (-1.5616) LEAMINGTON.1 LEAMINGTON.2 :=
      haversine_nonneg _ _ _ _
    have h3 : (0 : ℝ) ≤ haversine 52.3813 (-1.5616) CALPE.1 CALPE.2 :=
      haversine_nonneg _ _ _ _
    have hmin : min (haversine (52.3813 : ℝ) (-1.5616) CAMPUS.1 CAMPUS.2)
        (min (haversine (52.3813 : ℝ) (-1.5616) LEAMINGTON.1 LEAMINGTON.2)
          (haversine (52.3813 : ℝ) (-1.5616) CALPE.1 CALPE.2)) = 0 := by
      rw [hd1]
      exact min_eq_left (le_min h2 h3)
    rw [if_neg (by rw [hmin, UNKNOWN_LOCATION_THRESHOLD_M]; norm_num),
      if_pos (by rw [hmin, hd1])]
  · -- first point at (0, 0)
    have hd1 : 10000 < haversine 0 0 CAMPUS.1 CAMPUS.2 := by
      rw [CAMPUS]; exact haversine_origin_gt _ _ (by norm_num) (by norm_num)
    have hd2 : 10000 < haversine 0 0 LEAMINGTON.1 LEAMINGTON.2 := by
      rw [LEAMINGTON]; exact haversine_origin_gt _ _ (by norm_num) (by norm_num)
    have hd3 : 10000 < haversine 0 0 CALPE.1 CALPE.2 := by
      rw [CALPE]; exact haversine_origin_gt _ _ (by norm_num) (by norm_num)
    simp only [determine_start_location]
    rw [if_pos (by rw [UNKNOWN_LOCATION_THRESHOLD_M]; exact lt_min hd1 (lt_min hd2 hd3))]

/-- Witness for C6: the general part applied at the concrete Campus start
point, re-deriving the "Campus" classification. -/
theorem claim_C6_witness :
    determine_start_location (some ((52.3813 : ℝ), -1.5616)) = "Campus" := by
  have h2 : (0 : ℝ) ≤ haversine 52.3813 (-1.5616) LEAMINGTON.1 LEAMINGTON.2 :=
    haversine_nonneg _ _ _ _
  have h3 : (0 : ℝ) ≤ haversine 52.3813 (-1.5616) CALPE.1 CALPE.2 :=
    haversine_nonneg _ _ _ _
  have hd1 : haversine (52.3813 : ℝ) (-1.5616) CAMPUS.1 CAMPUS.2 = 0 := by
    rw [CAMPUS]
    exact haversine_self 52.3813 (-1.5616)
  have hmin : min (haversine (52.3813 : ℝ) (-1.5616) CAMPUS.1 CAMPUS.2)
      (min (haversine (52.3813 : ℝ) (-1.5616) LEAMINGTON.1 LEAMINGTON.2)
        (haversine (52.3813 : ℝ) (-1.5616) CALPE.1 CALPE.2)) = 0 := by
    rw [hd1]
    exact min_eq_left (le_min h2 h3)
  exact ((claim_C6.2.1 ((52.3813 : ℝ), -1.5616)).2
    (by rw [hmin, UNKNOWN_LOCATION_THRESHOLD_M]; norm_num)).1 (by rw [hmin, hd1])

/-! ## Proximity matcher (`src/app.py`, lines 151-192)

The cafe catalog rows and the parsed route points are passed in directly (the
database fetch and GPX file parse are I/O outside the engine).  A cafe row
carries its coordinates plus a payload (`id`) copied through unchanged.
Python's `float('inf')` sentinel for the running minimum is modelled by
`Option ℝ` (`none` = still infinite, which fails the `<= max_distance_m`
test exactly as `inf` does). -/

structure Cafe where
  id : ℕ
  latitude : ℝ
  longitude : ℝ

def MAX_CAFE_DISTANCE_M : ℝ := 2000

/-- The inner loop of `get_cafes_near_route`: running minimum of
`haversine(cafe.latitude, cafe.longitude, lat, lon)` over the route points. -/
noncomputable def min_distance_to_route (route_points : List (ℝ × ℝ)) (cafe : Cafe) :
    Option ℝ :=
  route_points.foldl (fun min_distance q =>
    match min_distance with
    | none => some (haversine cafe.latitude cafe.longitude q.1 q.2)
    | some m =>
        if haversine cafe.latitude cafe.longitude q.1 q.2 < m
        then some (haversine cafe.latitude cafe.longitude q.1 q.2)
        else some m) none

/-- The filtering loop of `get_cafes_near_route`: each cafe whose minimum
distance is `≤ max_distance_m`, annotated with that distance
(`distance_to_route`), in catalog order. -/
noncomputable def near_annotated (all_cafes : List Cafe) (route_points : List (ℝ × ℝ))
    (max_distance_m : ℝ) : List (Cafe × ℝ) :=
  all_cafes.filterMap (fun cafe =>
    match min_distance_to_route route_points cafe with
    | none => none
    | some m => if m ≤ max_distance_m then some (cafe, m) else none)

/-- Sort key of the final `cafes_near_route.sort(key=lambda x: x['distance_to_route'])`. -/
def byDist (a b : Cafe × ℝ) : Prop := a.2 ≤ b.2

noncomputable instance : DecidableRel byDist := fun a b => Real.decidableLE a.2 b.2

instance : IsTotal (Cafe × ℝ) byDist := ⟨fun a b => le_total a.2 b.2⟩

instance : IsTrans (Cafe × ℝ) byDist := ⟨fun _ _ _ => le_trans⟩

/-- `get_cafes_near_route`: Python's stable ascending sort is modelled by
insertion sort with the non-strict by-key order (which is stable). -/
noncomputable def get_cafes_near_route (all_cafes : List Cafe)
    (route_points : List (ℝ × ℝ)) (max_distance_m : ℝ) : List (Cafe × ℝ) :=
  if all_cafes.isEmpty then []
  else List.insertionSort byDist (near_annotated all_cafes route_points max_distance_m)

/-! ### Minimum-distance fold lemmas -/

lemma mdtr_from_some (cafe : Cafe) :
    ∀ (pts : List (ℝ × ℝ)) (m : ℝ),
      pts.foldl (fun min_distance q =>
        match min_distance with
        | none => some (haversine cafe.latitude cafe.longitude q.1 q.2)
        | some m =>
            if haversine cafe.latitude cafe.longitude q.1 q.2 < m
            then some (haversine cafe.latitude cafe.longitude q.1 q.2)
            else some m) (some m) =
      some (pts.foldl (fun m q => min m (haversine cafe.latitude cafe.longitude q.1 q.2)) m) := by
  intro pts
  induction pts with
  | nil => intro m; rfl
  | cons q rest ih =>
      intro m
      rw [List.foldl_cons, List.foldl_cons]
      have hstep : (match some m with
          | none => some (haversine cafe.latitude cafe.longitude q.1 q.2)
          | some m =>
              if haversine cafe.latitude cafe.longitude q.1 q.2 < m
              then some (haversine cafe.latitude cafe.longitude q.1 q.2)
              else some m) =
          some (min m (haversine cafe.latitude cafe.longitude q.1 q.2)) := by
        show (if haversine cafe.latitude cafe.longitude q.1 q.2 < m
            then some (haversine cafe.latitude cafe.longitude q.1 q.2)
            else some m) = some (min m (haversine cafe.latitude cafe.longitude q.1 q.2))
        split_ifs with h
        · rw [min_eq_right (le_of_lt h)]
        · rw [min_eq_left (not_lt.mp h)]
      rw [hstep, ih]

/-- The running-minimum fold is `List.min?` of the distances. -/
lemma mdtr_eq_min? (route_points : List (ℝ × ℝ)) (cafe : Cafe) :
    min_distance_to_route route_points cafe =
      (route_points.map (fun q => haversine cafe.latitude cafe.longitude q.1 q.2)).min? := by
  cases route_points with
  | nil => rfl
  | cons q rest =>
      rw [min_distance_to_route, List.foldl_cons]
      show rest.foldl _ (some (haversine cafe.latitude cafe.longitude q.1 q.2)) = _
      rw [mdtr_from_some cafe rest (haversine cafe.latitude cafe.longitude q.1 q.2),
        List.map_cons, List.min?_cons', List.foldl_map]

/-! ### Stability of the by-key insertion sort -/

lemma filter_orderedInsert (a : Cafe × ℝ) (m : List (Cafe × ℝ)) (d : ℝ) :
    (List.orderedInsert byDist a m).filter (fun x => x.2 = d) =
      if a.2 = d then a :: m.filter (fun x => x.2 = d)
      else m.filter (fun x => x.2 = d) := by
  rw [List.orderedInsert_eq_take_drop, List.filter_append, List.filter_cons]
  have htake : (m.takeWhile (fun b => decide ¬ byDist a b)).filter (fun x => x.2 = d) =
      ([] : List (Cafe × ℝ)) ∨ a.2 ≠ d := by
    by_cases had : a.2 = d
    · left
      rw [List.filter_eq_nil_iff]
      intro x hx
      have hpred := List.mem_takeWhile_imp hx
      simp only [decide_eq_true_eq] at hpred
      have : x.2 < a.2 := by
        by_contra hc
        exact hpred (le_of_not_lt hc)
      simp only [decide_eq_true_eq]
      intro hxd
      rw [hxd, had] at this
      exact lt_irrefl d this
    · right; exact had
  by_cases had : a.2 = d
  · rcases htake with ht | ht
    · rw [if_pos had, ht, List.nil_append]
      have hdec : (decide (a.2 = d)) = true := decide_eq_true had
      rw [hdec, if_pos rfl]
      congr 1
      conv_rhs => rw [← List.takeWhile_append_dropWhile (fun b => decide ¬ byDist a b) m]
      rw [List.filter_append, ht, List.nil_append]
    · exact absurd had ht
  · rw [if_neg had]
    have hdec : (decide (a.2 = d)) = false := decide_eq_false had
    rw [hdec, if_neg Bool.false_ne_true]
    conv_rhs => rw [← List.takeWhile_append_dropWhile (fun b => decide ¬ byDist a b) m]
    rw [List.filter_append]

lemma filter_insertionSort (l : List (Cafe × ℝ)) (d : ℝ) :
    (List.insertionSort byDist l).filter (fun x => x.2 = d) =
      l.filter (fun x => x.2 = d) := by
  induction l with
  | nil => rfl
  | cons a l ih =>
      rw [List.insertionSort, filter_orderedInsert, List.filter_cons]
      by_cases had : a.2 = d
      · rw [if_pos had, ih, decide_eq_true had, if_pos rfl]
      · rw [if_neg had, ih, decide_eq_false had, if_neg Bool.false_ne_true]

instance : Std.Antisymm ((· : ℝ) ≤ ·) := ⟨fun h₁ h₂ => le_antisymm h₁ h₂⟩

/-- Characterization of the running minimum: it is attained at a route point
and bounds every route point's distance from below. -/
lemma mdtr_some_spec (route_points : List (ℝ × ℝ)) (cafe : Cafe) (m : ℝ)
    (h : min_distance_to_route route_points cafe = some m) :
    (∃ q ∈ route_points, haversine cafe.latitude cafe.longitude q.1 q.2 = m) ∧
      ∀ q ∈ route_points, m ≤ haversine cafe.latitude cafe.longitude q.1 q.2 := by
  rw [mdtr_eq_min?] at h
  have h' := (List.min?_eq_some_iff (fun a : ℝ => le_refl a)
    (fun a b => min_choice a b)
    (fun a b c => le_min_iff)).mp h
  constructor
  · obtain ⟨q, hq, hfq⟩ := List.mem_map.mp h'.1
    exact ⟨q, hq, hfq⟩
  · intro q hq
    exact h'.2 _ (List.mem_map.mpr ⟨q, hq, rfl⟩)

lemma mdtr_coincident (route_points : List (ℝ × ℝ)) (cafe : Cafe)
    (h : ((cafe.latitude, cafe.longitude) : ℝ × ℝ) ∈ route_points) :
    min_distance_to_route route_points cafe = some 0 := by
  rw [mdtr_eq_min?]
  refine (List.min?_eq_some_iff (fun a : ℝ => le_refl a)
    (fun a b => min_choice a b)
    (fun a b c => le_min_iff)).mpr ⟨?_, ?_⟩
  · refine List.mem_map.mpr ⟨(cafe.latitude, cafe.longitude), h, ?_⟩
    exact haversine_self cafe.latitude cafe.longitude
  · intro b hb
    obtain ⟨q, _, rfl⟩ := List.mem_map.mp hb
    exact haversine_nonneg _ _ _ _

lemma near_annotated_mem (cafes : List Cafe) (route : List (ℝ × ℝ)) (maxd : ℝ)
    (c : Cafe) (m : ℝ) :
    (c, m) ∈ near_annotated cafes route maxd ↔
      c ∈ cafes ∧ min_distance_to_route route c = some m ∧ m ≤ maxd := by
  rw [near_annotated, List.mem_filterMap]
  constructor
  · rintro ⟨a, ha, hga⟩
    rcases hmd : min_distance_to_route route a with _ | m'
    · rw [hmd] at hga; exact absurd hga (by simp)
    · rw [hmd] at hga
      change (if m' ≤ maxd then some (a, m') else none) = some (c, m) at hga
      by_cases hle : m' ≤ maxd
      · rw [if_pos hle] at hga
        simp only [Option.some.injEq, Prod.mk.injEq] at hga
        obtain ⟨rfl, rfl⟩ := hga
        exact ⟨ha, hmd, hle⟩
      · rw [if_neg hle] at hga; exact absurd hga (by simp)
  · rintro ⟨hc, hmd, hle⟩
    exact ⟨c, hc, by rw [hmd]; exact if_pos hle⟩

lemma near_annotated_nonneg (cafes : List Cafe) (route : List (ℝ × ℝ)) (maxd : ℝ)
    (p : Cafe × ℝ) (hp : p ∈ near_annotated cafes route maxd) : 0 ≤ p.2 := by
  obtain ⟨c, m⟩ := p
  have h := ((near_annotated_mem cafes route maxd c m).mp hp).2.1
  obtain ⟨⟨q, _, hq⟩, _⟩ := mdtr_some_spec route c m h
  exact hq ▸ haversine_nonneg _ _ _ _

/-- C5: the proximity matcher returns exactly the cafes whose minimum
haversine distance to a route point is within `max_distance_m`, annotated with
that minimum, sorted ascending by distance with ties in catalog order; empty
route or empty catalog give the empty list, and a cafe coincident with a route
point is annotated 0 and sorts first. -/
theorem claim_C5 (cafes : List Cafe) (route : List (ℝ × ℝ)) (maxd : ℝ) :
    (get_cafes_near_route cafes route maxd).Perm (near_annotated cafes route maxd) ∧
    List.Sorted byDist (get_cafes_near_route cafes route maxd) ∧
    (∀ d : ℝ, (get_cafes_near_route cafes route maxd).filter (fun x => x.2 = d) =
      (near_annotated cafes route maxd).filter (fun x => x.2 = d)) ∧
    (∀ (c : Cafe) (m : ℝ), (c, m) ∈ near_annotated cafes route maxd ↔
      c ∈ cafes ∧ min_distance_to_route route c = some m ∧ m ≤ maxd) ∧
    (∀ (c : Cafe) (m : ℝ), min_distance_to_route route c = some m →
      (∃ q ∈ route, haversine c.latitude c.longitude q.1 q.2 = m) ∧
        ∀ q ∈ route, m ≤ haversine c.latitude c.longitude q.1 q.2) ∧
    (route = [] → get_cafes_near_route cafes route maxd = []) ∧
    (cafes = [] → get_cafes_near_route cafes route maxd = []) ∧
    (0 ≤ maxd → ∀ c ∈ cafes, ((c.latitude, c.longitude) : ℝ × ℝ) ∈ route →
      ∃ p : Cafe × ℝ, (get_cafes_near_route cafes route maxd).head? = some p ∧ p.2 = 0) := by
  have hperm : (get_cafes_near_route cafes route maxd).Perm
      (near_annotated cafes route maxd) := by
    rw [get_cafes_near_route]
    split_ifs with he
    · rw [List.isEmpty_iff.mp he, near_annotated, List.filterMap_nil]
    · exact List.perm_insertionSort byDist _
  have hsorted : List.Sorted byDist (get_cafes_near_route cafes route maxd) := by
    rw [get_cafes_near_route]
    split_ifs with he
    · exact List.sorted_nil
    · exact List.sorted_insertionSort byDist _
  refine ⟨hperm, hsorted, ?_, near_annotated_mem cafes route maxd,
    mdtr_some_spec route, ?_, ?_, ?_⟩
  · intro d
    rw [get_cafes_near_route]
    split_ifs with he
    · rw [List.isEmpty_iff.mp he, near_annotated, List.filterMap_nil]
    · exact filter_insertionSort _ d
  · intro hroute
    subst hroute
    have hnil : near_annotated cafes [] maxd = [] := by
      rw [near_annotated, List.filterMap_eq_nil_iff]
      intro c _
      rfl
    rw [get_cafes_near_route]
    split_ifs with he
    · rfl
    · rw [hnil]; rfl
  · intro hcafes
    subst hcafes
    rfl
  · intro hmaxd c hc hcoin
    have hmem0 : ((c, 0) : Cafe × ℝ) ∈ near_annotated cafes route maxd :=
      (near_annotated_mem cafes route maxd c 0).mpr
        ⟨hc, mdtr_coincident route c hcoin, hmaxd⟩
    have hmemout : ((c, 0) : Cafe × ℝ) ∈ get_cafes_near_route cafes route maxd :=
      hperm.mem_iff.mpr hmem0
    rcases hout : get_cafes_near_route cafes route maxd with _ | ⟨p, t⟩
    · rw [hout] at hmemout; exact absurd hmemout (List.not_mem_nil _)
    · refine ⟨p, rfl, ?_⟩
      have hple : p.2 ≤ 0 := by
        rw [hout] at hmemout
        rcases List.mem_cons.mp hmemout with heq | hmemt
        · rw [← heq]
        · have := hsorted
          rw [hout] at this
          have hrel := (List.pairwise_cons.mp this).1 _ hmemt
          exact hrel
      have hpge : 0 ≤ p.2 := by
        refine near_annotated_nonneg cafes route maxd p (hperm.mem_iff.mp ?_)
        rw [hout]; exact List.mem_cons_self p t
      exact le_antisymm hple hpge

/-- Witness for C5: a single cafe on the route, the full pipeline result. -/
theorem claim_C5_witness :
    (0 : ℝ) ≤ 2000 ∧
    ∃ p : Cafe × ℝ,
      (get_cafes_near_route [⟨0, 51, -1⟩] [((51 : ℝ), -1)] 2000).head? = some p ∧
        p.2 = 0 := by
  refine ⟨by norm_num, ?_⟩
  exact (claim_C5 [⟨0, 51, -1⟩] [((51 : ℝ), -1)] 2000).2.2.2.2.2.2.2
    (by norm_num) ⟨0, 51, -1⟩ (by simp) (by simp)

/-! ## Distance-window smoothing (`src/elevation_utils.py`, lines 21-63)

A point is `(latitude, longitude, elevation)`.  `cumdist` is the prefix-sum
array of consecutive `haversine_distance` values (`cumdist[0] = 0`).  The two
`while` loops advance `left`/`right` at most `n` times per outer iteration, so
they are modelled by fuel-bounded recursion with fuel `n`; the outer `for`
loop is `dbsGo` with `k = n - i` iterations remaining. -/

noncomputable def cumdistFrom (prev : ℝ) : (ℝ × ℝ × ℝ) → List (ℝ × ℝ × ℝ) → List ℝ
  | _, [] => []
  | p, q :: rest =>
      (prev + haversine_distance p.1 p.2.1 q.1 q.2.1) ::
        cumdistFrom (prev + haversine_distance p.1 p.2.1 q.1 q.2.1) q rest

noncomputable def cumdist : List (ℝ × ℝ × ℝ) → List ℝ
  | [] => []
  | p :: rest => 0 :: cumdistFrom 0 p rest

/-- `while left < n and cumdist[left] < min_d: left += 1` -/
noncomputable def advanceLeft (cum : List ℝ) (n : ℕ) (min_d : ℝ) : ℕ → ℕ → ℕ
  | 0, left => left
  | fuel + 1, left =>
      if left < n ∧ cum.getD left 0 < min_d then advanceLeft cum n min_d fuel (left + 1)
      else left

/-- `while right + 1 < n and cumdist[right + 1] <= max_d: right += 1` -/
noncomputable def advanceRight (cum : List ℝ) (n : ℕ) (max_d : ℝ) : ℕ → ℕ → ℕ
  | 0, right => right
  | fuel + 1, right =>
      if right + 1 < n ∧ cum.getD (right + 1) 0 ≤ max_d then
        advanceRight cum n max_d fuel (right + 1)
      else right

/-- Body of the outer `for i in range(n)` loop, with `k` iterations left. -/
noncomputable def dbsGo (cum eles : List ℝ) (n : ℕ) (smooth_distance : ℝ) :
    ℕ → ℕ → ℕ → ℕ → List ℝ
  | 0, _, _, _ => []
  | k + 1, i, left, right =>
      (if advanceLeft cum n (cum.getD i 0 - smooth_distance) n left ≤
          advanceRight cum n (cum.getD i 0 + smooth_distance) n right then
        ((List.range' (advanceLeft cum n (cum.getD i 0 - smooth_distance) n left)
            (advanceRight cum n (cum.getD i 0 + smooth_distance) n right + 1 -
              advanceLeft cum n (cum.getD i 0 - smooth_distance) n left)).map
          (fun j => eles.getD j 0)).sum /
          ((advanceRight cum n (cum.getD i 0 + smooth_distance) n right -
            advanceLeft cum n (cum.getD i 0 - smooth_distance) n left + 1 : ℕ) : ℝ)
      else eles.getD i 0) ::
        dbsGo cum eles n smooth_distance k (i + 1)
          (advanceLeft cum n (cum.getD i 0 - smooth_distance) n left)
          (advanceRight cum n (cum.getD i 0 + smooth_distance) n right)

/-- `distance_based_smoothing(points, smooth_distance)`. -/
noncomputable def distance_based_smoothing (points : List (ℝ × ℝ × ℝ))
    (smooth_distance : ℝ) : List ℝ :=
  if points.length < 2 then points.map (fun p => p.2.2)
  else
    dbsGo (cumdist points) (points.map (fun p => p.2.2)) points.length smooth_distance
      points.length 0 0 0

/-- Reference recomputation following the spec's wording (§4.2): at each
index `i`, the mean elevation over all samples whose cumulative distance lies
in `[cumdist(i) − D, cumdist(i) + D]`. -/
noncomputable def windowMean (cum eles : List ℝ) (n : ℕ) (D : ℝ) (i : ℕ) : ℝ :=
  (((List.range n).filter (fun j =>
      cum.getD i 0 - D ≤ cum.getD j 0 ∧ cum.getD j 0 ≤ cum.getD i 0 + D)).map
    (fun j => eles.getD j 0)).sum /
  (((List.range n).filter (fun j =>
      cum.getD i 0 - D ≤ cum.getD j 0 ∧ cum.getD j 0 ≤ cum.getD i 0 + D)).length : ℝ)

noncomputable def distance_smoothing_spec (points : List (ℝ × ℝ × ℝ)) (D : ℝ) : List ℝ :=
  (List.range points.length).map
    (windowMean (cumdist points) (points.map (fun p => p.2.2)) points.length D)

/-! ### Cumulative-distance lemmas -/

lemma cumdistFrom_length (prev : ℝ) :
    ∀ (p : ℝ × ℝ × ℝ) (rest : List (ℝ × ℝ × ℝ)),
      (cumdistFrom prev p rest).length = rest.length := by
  intro p rest
  induction rest generalizing prev p with
  | nil => rfl
  | cons q rest ih => rw [cumdistFrom]; simp [ih]

lemma cumdist_length (points : List (ℝ × ℝ × ℝ)) :
    (cumdist points).length = points.length := by
  cases points with
  | nil => rfl
  | cons p rest => rw [cumdist]; simp [cumdistFrom_length]

lemma cumdistFrom_chain (prev : ℝ) :
    ∀ (p : ℝ × ℝ × ℝ) (rest : List (ℝ × ℝ × ℝ)),
      (prev :: cumdistFrom prev p rest).Chain' (· ≤ ·) := by
  intro p rest
  induction rest generalizing prev p with
  | nil => exact List.chain'_singleton prev
  | cons q rest ih =>
      rw [cumdistFrom]
      refine List.chain'_cons.mpr ⟨?_, ih _ q⟩
      have := haversine_distance_nonneg p.1 p.2.1 q.1 q.2.1
      linarith

lemma cumdist_chain (points : List (ℝ × ℝ × ℝ)) :
    (cumdist points).Chain' (· ≤ ·) := by
  cases points with
  | nil => exact List.chain'_nil
  | cons p rest => exact cumdistFrom_chain 0 p rest

lemma cumdist_mono (points : List (ℝ × ℝ × ℝ)) {i j : ℕ}
    (hij : i ≤ j) (hj : j < points.length) :
    (cumdist points).getD i 0 ≤ (cumdist points).getD j 0 := by
  rcases eq_or_lt_of_le hij with rfl | hlt
  · exact le_rfl
  · have hlen := cumdist_length points
    have hjl : j < (cumdist points).length := by rw [hlen]; exact hj
    have hil : i < (cumdist points).length := lt_trans (by omega) hjl
    have hpw : (cumdist points).Pairwise (· ≤ ·) :=
      (List.chain'_iff_pairwise).mp (cumdist_chain points)
    rw [List.getD_eq_getElem (cumdist points) 0 hil,
      List.getD_eq_getElem (cumdist points) 0 hjl]
    exact List.pairwise_iff_getElem.mp hpw i j hil hjl hlt

lemma cumdist_zero (p : ℝ × ℝ × ℝ) (rest : List (ℝ × ℝ × ℝ)) :
    (cumdist (p :: rest)).getD 0 0 = 0 := rfl

/-! ### While-loop characterizations -/

lemma advanceLeft_spec (cum : List ℝ) (n : ℕ) (mind : ℝ) :
    ∀ (fuel l : ℕ), n ≤ l + fuel →
      l ≤ advanceLeft cum n mind fuel l ∧
      (∀ j, l ≤ j → j < advanceLeft cum n mind fuel l → j < n ∧ cum.getD j 0 < mind) ∧
      ¬(advanceLeft cum n mind fuel l < n ∧
        cum.getD (advanceLeft cum n mind fuel l) 0 < mind) := by
  intro fuel
  induction fuel with
  | zero =>
      intro l hfuel
      rw [advanceLeft]
      exact ⟨le_rfl, fun j h1 h2 => absurd (lt_of_le_of_lt h1 h2) (lt_irrefl l),
        fun h => absurd h.1 (by omega)⟩
  | succ fuel ih =>
      intro l hfuel
      rw [advanceLeft]
      split_ifs with hc
      · obtain ⟨ih1, ih2, ih3⟩ := ih (l + 1) (by omega)
        refine ⟨by omega, ?_, ih3⟩
        intro j h1 h2
        rcases eq_or_lt_of_le h1 with rfl | h1'
        · exact hc
        · exact ih2 j (by omega) h2
      · exact ⟨le_rfl, fun j h1 h2 => absurd (lt_of_le_of_lt h1 h2) (lt_irrefl l), hc⟩

lemma advanceRight_spec (cum : List ℝ) (n : ℕ) (maxd : ℝ) :
    ∀ (fuel r : ℕ), n ≤ r + 1 + fuel →
      r ≤ advanceRight cum n maxd fuel r ∧
      (∀ j, r < j → j ≤ advanceRight cum n maxd fuel r → j < n ∧ cum.getD j 0 ≤ maxd) ∧
      ¬(advanceRight cum n maxd fuel r + 1 < n ∧
        cum.getD (advanceRight cum n maxd fuel r + 1) 0 ≤ maxd) := by
  intro fuel
  induction fuel with
  | zero =>
      intro r hfuel
      rw [advanceRight]
      exact ⟨le_rfl, fun j h1 h2 => absurd (lt_of_lt_of_le h1 h2) (lt_irrefl r),
        fun h => absurd h.1 (by omega)⟩
  | succ fuel ih =>
      intro r hfuel
      rw [advanceRight]
      split_ifs with hc
      · obtain ⟨ih1, ih2, ih3⟩ := ih (r + 1) (by omega)
        refine ⟨by omega, ?_, ih3⟩
        intro j h1 h2
        rcases eq_or_lt_of_le (Nat.succ_le_of_lt h1) with heq | h1'
        · rw [← heq]; exact hc
        · exact ih2 j h1' h2
      · exact ⟨le_rfl, fun j h1 h2 => absurd (lt_of_lt_of_le h1 h2) (lt_irrefl r), hc⟩

lemma advanceRight_lt (cum : List ℝ) (n : ℕ) (maxd : ℝ) :
    ∀ (fuel r : ℕ), r < n → advanceRight cum n maxd fuel r < n := by
  intro fuel
  induction fuel with
  | zero => intro r hr; rw [advanceRight]; exact hr
  | succ fuel ih =>
      intro r hr
      rw [advanceRight]
      split_ifs with hc
      · exact ih (r + 1) hc.1
      · exact hr

/-- A filter of `range n` by an interval predicate is a contiguous `range'`. -/
lemma filter_range_interval :
    ∀ (n a b : ℕ) (p : ℕ → Bool), a ≤ b → b < n →
      (∀ j, j < n → (p j = true ↔ a ≤ j ∧ j ≤ b)) →
      (List.range n).filter p = List.range' a (b + 1 - a) := by
  intro n
  induction n with
  | zero => intro a b p _ hbn; omega
  | succ n ih =>
      intro a b p hab hbn hiff
      rw [List.range_succ, List.filter_append]
      by_cases hbn' : b = n
      · have hpn : p n = true := (hiff n (by omega)).mpr ⟨by omega, by omega⟩
        have hfiltn : List.filter p [n] = [n] := by simp [hpn]
        rw [hfiltn]
        by_cases han : a = n
        · have hemp : (List.range n).filter p = [] := by
            rw [List.filter_eq_nil_iff]
            intro j hj hpj
            have hj' := List.mem_range.mp hj
            have := (hiff j (by omega)).mp hpj
            omega
          rw [hemp, List.nil_append]
          have h1 : b + 1 - a = 1 := by omega
          rw [h1, List.range'_one, han]
        · have hrec := ih a (n - 1) p (by omega) (by omega)
            (fun j hj => by rw [hiff j (by omega)]; omega)
          rw [hrec]
          have h1 : n - 1 + 1 - a = n - a := by omega
          rw [h1]
          have h2 : List.range' a (n - a) ++ [n] = List.range' a (n - a + 1) := by
            rw [List.range'_concat]
            congr 2
            omega
          rw [h2]
          congr 1
          omega
      · have hpn : ∀ x ∈ [n], ¬ p x = true := by
          intro x hx
          rw [List.mem_singleton.mp hx]
          intro hc
          have := (hiff n (by omega)).mp hc
          omega
        rw [List.filter_eq_nil_iff.mpr hpn, List.append_nil]
        exact ih a b p hab (by omega) (fun j hj => hiff j (by omega))

/-- Correctness of the sliding-window loop: with monotone cumulative distances
and a positive radius it computes the reference window mean at every index. -/
lemma dbsGo_spec (cum eles : List ℝ) (n : ℕ) (D : ℝ) (hD : 0 < D)
    (hmono : ∀ i j : ℕ, i ≤ j → j < n → cum.getD i 0 ≤ cum.getD j 0) :
    ∀ (k i l r : ℕ), i + k = n →
      (i < n → ∀ j, j < l → cum.getD j 0 < cum.getD i 0 - D) →
      (i < n → r < n ∧ cum.getD r 0 ≤ cum.getD i 0 + D) →
      dbsGo cum eles n D k i l r = (List.range' i k).map (windowMean cum eles n D) := by
  intro k
  induction k with
  | zero => intro i l r _ _ _; rfl
  | succ k ih =>
      intro i l r hk hlinv hrinv
      have hi : i < n := by omega
      obtain ⟨hrn, hrle⟩ := hrinv hi
      have hl := hlinv hi
      have hli : l ≤ i := by
        by_contra hc
        have := hl i (by omega)
        linarith
      obtain ⟨hL1, hL2, hL3⟩ :=
        advanceLeft_spec cum n (cum.getD i 0 - D) n l (by omega)
      obtain ⟨hR1, hR2, hR3⟩ :=
        advanceRight_spec cum n (cum.getD i 0 + D) n r (by omega)
      set L := advanceLeft cum n (cum.getD i 0 - D) n l with hLdef
      set R := advanceRight cum n (cum.getD i 0 + D) n r with hRdef
      have hRlt : R < n := advanceRight_lt cum n (cum.getD i 0 + D) n r hrn
      have hLi : L ≤ i := by
        by_contra hc
        have := (hL2 i hli (by omega)).2
        linarith
      have hLlow : ∀ j, j < L → cum.getD j 0 < cum.getD i 0 - D := by
        intro j hj
        by_cases hjl : j < l
        · exact hl j hjl
        · exact (hL2 j (by omega) hj).2
      have hLge : cum.getD i 0 - D ≤ cum.getD L 0 := by
        by_contra hc
        exact hL3 ⟨by omega, by linarith⟩
      have hRle2 : cum.getD R 0 ≤ cum.getD i 0 + D := by
        rcases eq_or_lt_of_le hR1 with heq | hlt
        · rw [← heq]; exact hrle
        · exact (hR2 R hlt le_rfl).2
      have hiR : i ≤ R := by
        by_contra hc
        have hR1n : R + 1 < n := by omega
        have hcum : ¬ cum.getD (R + 1) 0 ≤ cum.getD i 0 + D := fun hle => hR3 ⟨hR1n, hle⟩
        have : cum.getD (R + 1) 0 ≤ cum.getD i 0 :=
          hmono (R + 1) i (by omega) hi
        exact hcum (by linarith)
      have hLR : L ≤ R := le_trans hLi hiR
      have hwin : ∀ j, j < n →
          ((fun j => decide (cum.getD i 0 - D ≤ cum.getD j 0 ∧
            cum.getD j 0 ≤ cum.getD i 0 + D)) j = true ↔ L ≤ j ∧ j ≤ R) := by
        intro j hj
        simp only [decide_eq_true_eq]
        constructor
        · rintro ⟨hjlo, hjhi⟩
          constructor
          · by_contra hc
            have := hLlow j (by omega)
            linarith
          · by_contra hc
            by_cases hR1n : R + 1 < n
            · have hgt : ¬ cum.getD (R + 1) 0 ≤ cum.getD i 0 + D :=
                fun hle => hR3 ⟨hR1n, hle⟩
              have : cum.getD (R + 1) 0 ≤ cum.getD j 0 := hmono (R + 1) j (by omega) hj
              exact hgt (by linarith)
            · omega
        · rintro ⟨hLj, hjR⟩
          constructor
          · exact le_trans hLge (hmono L j hLj hj)
          · exact le_trans (hmono j R hjR hRlt) hRle2
      have hfilt := filter_range_interval n L R
        (fun j => decide (cum.getD i 0 - D ≤ cum.getD j 0 ∧
          cum.getD j 0 ≤ cum.getD i 0 + D)) hLR hRlt hwin
      rw [dbsGo, List.range'_succ, List.map_cons]
      congr 1
      · rw [if_pos hLR, windowMean, hfilt, List.length_range']
        have : R + 1 - L = R - L + 1 := by omega
        rw [this]
      · exact ih (i + 1) L R (by omega)
          (fun hi1 j hj => lt_of_lt_of_le (hLlow j hj)
            (by have := hmono i (i + 1) (by omega) hi1; linarith))
          (fun hi1 => ⟨hRlt, le_trans hRle2
            (by have := hmono i (i + 1) (by omega) hi1; linarith)⟩)

/-- C4: for every positive path-length radius, the two-pointer implementation
equals the naive per-sample window-mean reference, and preserves length. -/
theorem claim_C4 (points : List (ℝ × ℝ × ℝ)) (D : ℝ) (hD : 0 < D) :
    distance_based_smoothing points D = distance_smoothing_spec points D ∧
    (distance_based_smoothing points D).length = points.length := by
  have hmain : distance_based_smoothing points D = distance_smoothing_spec points D := by
    rw [distance_based_smoothing]
    split_ifs with hlen
    · -- fewer than 2 points
      match points with
      | [] => rfl
      | [p] =>
          rw [distance_smoothing_spec]
          show [p.2.2] = [windowMean (cumdist [p]) [p.2.2] 1 D 0]
          have hc : ((0 : ℝ) - D ≤ 0 ∧ (0 : ℝ) ≤ 0 + D) := ⟨by linarith, by linarith⟩
          have hfilt : (List.range 1).filter (fun j =>
              decide ((cumdist [p]).getD 0 0 - D ≤ (cumdist [p]).getD j 0 ∧
                (cumdist [p]).getD j 0 ≤ (cumdist [p]).getD 0 0 + D)) = [0] := by
            rw [show List.range 1 = [0] from rfl, List.filter_singleton]
            show (bif decide ((0 : ℝ) - D ≤ 0 ∧ (0 : ℝ) ≤ 0 + D) then [0] else []) = [0]
            rw [decide_eq_true hc]
            rfl
          rw [windowMean, hfilt]
          simp
      | p :: q :: rest =>
          exfalso
          simp only [List.length_cons] at hlen
          omega
    · apply Eq.trans (dbsGo_spec (cumdist points) (points.map (fun p => p.2.2))
        points.length D hD
        (fun i j hij hj => cumdist_mono points hij hj)
        points.length 0 0 0 (by omega)
        (fun _ j hj => absurd hj (Nat.not_lt_zero j))
        (fun h0 => ⟨h0, by linarith⟩))
      rw [distance_smoothing_spec, List.range_eq_range']
  exact ⟨hmain, by rw [hmain, distance_smoothing_spec]; simp⟩

/-- Witness for C4: positive radius discharged at a one-point route. -/
theorem claim_C4_witness :
    (0 : ℝ) < 1 ∧
    distance_based_smoothing [((0 : ℝ), 0, 7)] 1 =
      distance_smoothing_spec [((0 : ℝ), 0, 7)] 1 :=
  ⟨by norm_num, (claim_C4 [((0 : ℝ), 0, 7)] 1 (by norm_num)).1⟩

/-! ## C10: smoothing stays within the input elevation range -/

lemma mean_bounds {α : Type} [LinearOrderedField α] (xs : List α) (lo hi : α)
    (hne : xs ≠ []) (hb : ∀ x ∈ xs, lo ≤ x ∧ x ≤ hi) :
    lo ≤ xs.sum / (xs.length : α) ∧ xs.sum / (xs.length : α) ≤ hi := by
  have hlen : 0 < (xs.length : α) := by
    have : 0 < xs.length := List.length_pos.mpr hne
    exact_mod_cast this
  have hlow : (xs.length : α) * lo ≤ xs.sum := by
    have := List.card_nsmul_le_sum xs lo (fun x hx => (hb x hx).1)
    rwa [nsmul_eq_mul] at this
  have hhigh : xs.sum ≤ (xs.length : α) * hi := by
    have := List.sum_le_card_nsmul xs hi (fun x hx => (hb x hx).2)
    rwa [nsmul_eq_mul] at this
  constructor
  · rw [le_div_iff₀ hlen]; linarith
  · rw [div_le_iff₀ hlen]; linarith

instance : Std.Antisymm ((· : ℚ) ≤ ·) := ⟨fun h₁ h₂ => le_antisymm h₁ h₂⟩

lemma min?_max?_bounds {α : Type} [LinearOrderedField α]
    [Std.Antisymm ((· : α) ≤ ·)] (l : List α) (lo hi : α)
    (hmin : l.min? = some lo) (hmax : l.max? = some hi) :
    ∀ x ∈ l, lo ≤ x ∧ x ≤ hi := by
  have h1 := (List.min?_eq_some_iff (fun a : α => le_refl a)
    (fun a b => min_choice a b)
    (fun a b c => le_min_iff)).mp hmin
  have h2 := (List.max?_eq_some_iff (fun a : α => le_refl a)
    (fun a b => max_choice a b)
    (fun a b c => max_le_iff)).mp hmax
  exact fun x hx => ⟨h1.2 x hx, h2.2 x hx⟩

lemma maf_mem_bounds {α : Type} [LinearOrderedField α] (l : List α) (w : ℕ)
    (lo hi : α) (hb : ∀ x ∈ l, lo ≤ x ∧ x ≤ hi) :
    ∀ y ∈ moving_average_filter l w, lo ≤ y ∧ y ≤ hi := by
  intro y hy
  rw [moving_average_filter] at hy
  split_ifs at hy with hlen
  · exact hb y hy
  · simp only [List.mem_map, List.mem_range] at hy
    obtain ⟨i, hilen, hyeq⟩ := hy
    set ws := (l.drop (i - w / 2)).take (min l.length (i + w / 2 + 1) - (i - w / 2))
      with hws
    have hsub : ∀ x ∈ ws, lo ≤ x ∧ x ≤ hi := fun x hx =>
      hb x (List.mem_of_mem_drop (List.mem_of_mem_take hx))
    have hnz : ws ≠ [] := by
      rw [hws, ← List.length_pos, List.length_take, List.length_drop]
      omega
    have := mean_bounds ws lo hi hnz hsub
    rw [← hyeq]
    exact this

lemma dbsGo_mem_bounds (cum eles : List ℝ) (n : ℕ) (D : ℝ) (lo hi : ℝ)
    (hn : eles.length = n) (hb : ∀ x ∈ eles, lo ≤ x ∧ x ≤ hi) :
    ∀ (k i l r : ℕ), r < n → i + k ≤ n →
      ∀ y ∈ dbsGo cum eles n D k i l r, lo ≤ y ∧ y ≤ hi := by
  intro k
  induction k with
  | zero => intro i l r _ _ y hy; exact absurd hy (List.not_mem_nil y)
  | succ k ih =>
      intro i l r hr hik y hy
      rw [dbsGo] at hy
      set L := advanceLeft cum n (cum.getD i 0 - D) n l with hL
      set R := advanceRight cum n (cum.getD i 0 + D) n r with hR
      have hRlt : R < n := advanceRight_lt cum n (cum.getD i 0 + D) n r hr
      rcases List.mem_cons.mp hy with hhead | htail
      · subst hhead
        split_ifs with hLR
        · set ws := (List.range' L (R + 1 - L)).map (fun j => eles.getD j 0) with hws
          have hsub : ∀ x ∈ ws, lo ≤ x ∧ x ≤ hi := by
            intro x hx
            rw [hws, List.mem_map] at hx
            obtain ⟨j, hj, hxeq⟩ := hx
            rw [List.mem_range'] at hj
            obtain ⟨t, ht, hjeq⟩ := hj
            have hjn : j < n := by omega
            rw [← hxeq, List.getD_eq_getElem eles 0 (by omega)]
            exact hb _ (List.getElem_mem _)
          have hnz : ws ≠ [] := by
            rw [hws, ← List.length_pos, List.length_map, List.length_range']
            omega
          have hmb := mean_bounds ws lo hi hnz hsub
          have hlen : (ws.length : ℝ) = ((R - L + 1 : ℕ) : ℝ) := by
            rw [hws, List.length_map, List.length_range']
            congr 1
            omega
          rw [← hlen]
          exact hmb
        · rw [List.getD_eq_getElem eles 0 (by omega)]
          exact hb _ (List.getElem_mem _)
      · exact ih (i + 1) L R hRlt (by omega) y htail

/-- C10: every output sample of either smoother lies between the minimum and
maximum input elevation (non-empty input). -/
theorem claim_C10 :
    (∀ (l : List ℚ) (w : ℕ) (lo hi : ℚ), l.min? = some lo → l.max? = some hi →
      ∀ y ∈ moving_average_filter l w, lo ≤ y ∧ y ≤ hi) ∧
    (∀ (points : List (ℝ × ℝ × ℝ)) (D lo hi : ℝ),
      (points.map (fun p => p.2.2)).min? = some lo →
      (points.map (fun p => p.2.2)).max? = some hi →
      ∀ y ∈ distance_based_smoothing points D, lo ≤ y ∧ y ≤ hi) := by
  constructor
  · intro l w lo hi hmin hmax
    exact maf_mem_bounds l w lo hi (min?_max?_bounds l lo hi hmin hmax)
  · intro points D lo hi hmin hmax
    have hb := min?_max?_bounds _ lo hi hmin hmax
    intro y hy
    rw [distance_based_smoothing] at hy
    split_ifs at hy with hlen
    · exact hb y hy
    · exact dbsGo_mem_bounds (cumdist points) (points.map (fun p => p.2.2))
        points.length D lo hi (by simp) hb points.length 0 0 0 (by omega) (by omega) y hy

/-- Witness for C10: both parts at one-sample inputs. -/
theorem claim_C10_witness :
    ((5 : ℚ) ∈ moving_average_filter [(5 : ℚ)] 3 ∧ (5 : ℚ) ≤ 5 ∧ (5 : ℚ) ≤ 5) ∧
    ((7 : ℝ) ∈ distance_based_smoothing [((0 : ℝ), 0, 7)] 25 ∧
      (7 : ℝ) ≤ 7 ∧ (7 : ℝ) ≤ 7) := by
  constructor
  · have h := claim_C10.1 [(5 : ℚ)] 3 5 5 rfl rfl 5 (by decide)
    exact ⟨by decide, h⟩
  · have hmem : (7 : ℝ) ∈ distance_based_smoothing [((0 : ℝ), 0, 7)] 25 := by
      rw [distance_based_smoothing, if_pos (by simp)]
      simp
    have h := claim_C10.2 [((0 : ℝ), 0, 7)] 25 7 7 rfl rfl 7 hmem
    exact ⟨hmem, h⟩

/-! ## Elevation gain dispatcher (`src/elevation_utils.py`, lines 81-136)

`raise ValueError(f"Unknown method: ...")` and Python's `ZeroDivisionError`
(from `total_gain_ma / distance` when `distance == 0.0`) are modelled as
`Except` errors. -/

inductive ElevErr where
  | unknownMethod : ElevErr
  | divisionByZero : ElevErr
deriving DecidableEq

noncomputable def calculate_elevation_gain (points : List (ℝ × ℝ × ℝ)) (distance : ℝ)
    (method : String) : Except ElevErr ℝ :=
  if points.length < 2 then .ok 0
  else if method = "distance_smooth_threshold" then
    .ok (_calculate_gain_with_threshold (distance_based_smoothing points 25) 2)
  else if method = "moving_average_threshold" then
    .ok (_calculate_gain_with_threshold
      (moving_average_filter (points.map (fun p => p.2.2)) 3) 1)
  else if method = "best_of_both" then
    if distance = 0 then .error .divisionByZero
    else
      .ok (if 11 < _calculate_gain_with_threshold
            (moving_average_filter (points.map (fun p => p.2.2)) 3) 1 / distance * 1000 then
          _calculate_gain_with_threshold (distance_based_smoothing points 25) 2
        else
          _calculate_gain_with_threshold
            (moving_average_filter (points.map (fun p => p.2.2)) 3) 1)
  else .error .unknownMethod

/-- C7 (amended): `calculate_elevation_gain` signals UnknownMethod exactly
when the method is unrecognized **and** the input has at least two points
(with fewer than two points it returns 0 before inspecting the method);
recognized methods never signal UnknownMethod. -/
theorem claim_C7 (points : List (ℝ × ℝ × ℝ)) (distance : ℝ) (method : String) :
    calculate_elevation_gain points distance method = .error .unknownMethod ↔
      2 ≤ points.length ∧ method ≠ "distance_smooth_threshold" ∧
        method ≠ "moving_average_threshold" ∧ method ≠ "best_of_both" := by
  rw [calculate_elevation_gain]
  split_ifs with h1 h2 h3 h4 h5 <;>
    constructor <;> intro hx
  · exact absurd hx (by simp)
  · omega
  · exact absurd hx (by simp)
  · exact absurd h2 hx.2.1
  · exact absurd hx (by simp)
  · exact absurd h3 hx.2.2.1
  · exact absurd hx (by simp)
  · exact absurd h4 hx.2.2.2
  · exact absurd hx (by simp)
  · exact absurd h4 hx.2.2.2
  · exact ⟨by omega, h2, h3, h4⟩
  · rfl

/-- Counterexample to C7 as stated: an unrecognized method with an empty
point list does not raise — the function returns 0 first. -/
theorem claim_C7_counterexample :
    calculate_elevation_gain [] 0 "bogus" = .ok 0 ∧
    "bogus" ≠ "distance_smooth_threshold" ∧
    "bogus" ≠ "moving_average_threshold" ∧ "bogus" ≠ "best_of_both" :=
  ⟨by rw [calculate_elevation_gain, if_pos (by simp)], by decide, by decide, by decide⟩

/-- C9: with at least two points and a supplied total distance of 0, the
`best_of_both` blend test divides by the distance and fails with a
division-by-zero error instead of returning a gain. -/
theorem claim_C9 :
    2 ≤ ([((0 : ℝ), 0, 0), ((0 : ℝ), 0, 0)] : List (ℝ × ℝ × ℝ)).length ∧
    calculate_elevation_gain [((0 : ℝ), 0, 0), ((0 : ℝ), 0, 0)] 0 "best_of_both" =
      .error .divisionByZero := by
  refine ⟨by simp, ?_⟩
  rw [calculate_elevation_gain, if_neg (by simp), if_neg (by decide),
    if_neg (by decide), if_pos rfl, if_pos rfl]

/-! ## GPX pipeline (`src/elevation_utils.py`, lines 193-241)

`process_gpx_for_elevation` computes the distance with
`sum([t.length_3d() for t in gpx.tracks])`, delegating to the `gpxpy`
dependency.  The following `gpxpy_*` definitions model `gpxpy.geo` (module
`geo.py` of the gpxpy library: `EARTH_RADIUS = 6378.137 * 1000`,
`ONE_DEGREE = 1000. * 10000.8 / 90.`, `haversine_distance`, `distance`,
`length(..., _3d=True)`): the 3-D distance between nearby points is the
flat-earth 2-D distance combined with the elevation difference, and
`length_3d` sums it over consecutive points of each segment.  The SRTM
elevation service used by the non-leaflet branch is an injected lookup. -/

structure GpxPoint where
  latitude : ℝ
  longitude : ℝ
  elevation : Option ℝ

structure GpxSegment where
  points : List GpxPoint

structure GpxTrack where
  segments : List GpxSegment

structure Gpx where
  tracks : List GpxTrack

noncomputable def ONE_DEGREE : ℝ := 1000 * 10000.8 / 90

noncomputable def gpxpy_haversine_distance (lat1 lon1 lat2 lon2 : ℝ) : ℝ :=
  6378.137 * 1000 *
    (2 * Real.arcsin (Real.sqrt (Real.sin (radians (lat1 - lat2) / 2) ^ 2 +
      Real.sin (radians (lon1 - lon2) / 2) ^ 2 *
        Real.cos (radians lat1) * Real.cos (radians lat2))))

noncomputable def gpxpy_distance_2d_flat (lat1 lon1 lat2 lon2 : ℝ) : ℝ :=
  Real.sqrt ((lat1 - lat2) * (lat1 - lat2) +
    ((lon1 - lon2) * Real.cos (radians lat1)) * ((lon1 - lon2) * Real.cos (radians lat1))) *
    ONE_DEGREE

/-- `gpxpy.geo.distance(lat1, lon1, ele1, lat2, lon2, ele2)` (with
`haversine=None`). -/
noncomputable def gpxpy_distance (lat1 lon1 : ℝ) (ele1 : Option ℝ)
    (lat2 lon2 : ℝ) (ele2 : Option ℝ) : ℝ :=
  if 0.2 < |lat1 - lat2| ∨ 0.2 < |lon1 - lon2| then
    gpxpy_haversine_distance lat1 lon1 lat2 lon2
  else
    match ele1, ele2 with
    | some e1, some e2 =>
        if e1 = e2 then gpxpy_distance_2d_flat lat1 lon1 lat2 lon2
        else
          Real.sqrt (gpxpy_distance_2d_flat lat1 lon1 lat2 lon2 ^ 2 + (e1 - e2) ^ 2)
    | _, _ => gpxpy_distance_2d_flat lat1 lon1 lat2 lon2

/-- `gpxpy.geo.length_3d(points)`: sum of `location.distance_3d(previous)`
over consecutive points (adding a zero distance is a no-op, so the `if d:`
guard is sum-transparent). -/
noncomputable def gpxpy_length_3d (pts : List GpxPoint) : ℝ :=
  ((pts.zip pts.tail).map (fun pq =>
    gpxpy_distance pq.2.latitude pq.2.longitude pq.2.elevation
      pq.1.latitude pq.1.longitude pq.1.elevation)).sum

/-- `Track.length_3d()`: sum over the track's segments. -/
noncomputable def track_length_3d (t : GpxTrack) : ℝ :=
  (t.segments.map (fun s => gpxpy_length_3d s.points)).sum

/-- `process_gpx_for_elevation(gpx, method)`; `srtm_lookup` injects the SRTM
dataset (`srtm.get_data().get_elevation`). -/
noncomputable def process_gpx_for_elevation (gpx : Gpx) (srtm_lookup : ℝ → ℝ → Option ℝ)
    (method : String) : Except ElevErr (ℝ × ℝ) :=
  let all_points := (gpx.tracks.map (fun t => (t.segments.map (fun s =>
      s.points.filterMap (fun p =>
        p.elevation.map (fun e => (p.latitude, p.longitude, e))))).flatten)).flatten
  let distance := (gpx.tracks.map track_length_3d).sum
  if method = "leaflet_elevation" then
    .ok (distance, calculate_leaflet_elevation_ascent (all_points.map (fun p => p.2.2)))
  else
    (calculate_elevation_gain
      (all_points.filterMap (fun p =>
        (srtm_lookup p.1 p.2.1).map (fun e => (p.1, p.2.1, e))))
      distance method).map (fun g => (distance, g))

/-- Sum of consecutive GeoMath (`haversine_distance`) distances over a point
sequence, as the claim words the distance. -/
noncomputable def geomath_distance_sum (pts : List (ℝ × ℝ × ℝ)) : ℝ :=
  ((pts.zip pts.tail).map (fun pq =>
    haversine_distance pq.1.1 pq.1.2.1 pq.2.1 pq.2.2.1)).sum

/-- C1 (amended): the distance returned by the pipeline is the gpxpy 3-D
track length (computed before method dispatch), hence identical across any
two method selections that return a result. -/
theorem claim_C1 (gpx : Gpx) (lookup : ℝ → ℝ → Option ℝ) :
    (∀ (m₁ m₂ : String) (d₁ g₁ d₂ g₂ : ℝ),
      process_gpx_for_elevation gpx lookup m₁ = .ok (d₁, g₁) →
      process_gpx_for_elevation gpx lookup m₂ = .ok (d₂, g₂) → d₁ = d₂) ∧
    (∀ (m : String) (d g : ℝ), process_gpx_for_elevation gpx lookup m = .ok (d, g) →
      d = (gpx.tracks.map track_length_3d).sum) := by
  have hmapok : ∀ (x : Except ElevErr ℝ) (f : ℝ → ℝ × ℝ) (y : ℝ × ℝ),
      x.map f = .ok y → ∃ v, x = .ok v ∧ f v = y := by
    intro x f y h
    cases x with
    | error e => exact absurd h (by simp [Except.map])
    | ok v => exact ⟨v, rfl, by simpa [Except.map] using h⟩
  have hsnd : ∀ (m : String) (d g : ℝ),
      process_gpx_for_elevation gpx lookup m = .ok (d, g) →
      d = (gpx.tracks.map track_length_3d).sum := by
    intro m d g h
    rw [process_gpx_for_elevation] at h
    split_ifs at h with hm
    · simp only [Except.ok.injEq, Prod.mk.injEq] at h
      exact h.1.symm
    · obtain ⟨v, hv, hfv⟩ := hmapok _ _ _ h
      simp only [Prod.mk.injEq] at hfv
      exact hfv.1.symm
  exact ⟨fun m₁ m₂ d₁ g₁ d₂ g₂ h₁ h₂ => (hsnd m₁ d₁ g₁ h₁).trans (hsnd m₂ d₂ g₂ h₂).symm,
    hsnd⟩

/-- The two-point GPX at a fixed location with a 100 m elevation step. -/
noncomputable def cexGpx : Gpx :=
  ⟨[⟨[⟨[⟨0, 0, some 0⟩, ⟨0, 0, some 100⟩]⟩]⟩]⟩

lemma cex_dist : gpxpy_distance (0 : ℝ) 0 (some 100) 0 0 (some 0) = 100 := by
  rw [gpxpy_distance]
  rw [if_neg (by rw [sub_zero, abs_zero]; push_neg; norm_num)]
  show (if (100 : ℝ) = 0 then gpxpy_distance_2d_flat 0 0 0 0
    else Real.sqrt (gpxpy_distance_2d_flat 0 0 0 0 ^ 2 + ((100 : ℝ) - 0) ^ 2)) = 100
  rw [if_neg (by norm_num)]
  have hflat : gpxpy_distance_2d_flat (0 : ℝ) 0 0 0 = 0 := by
    rw [gpxpy_distance_2d_flat]
    norm_num
  rw [hflat]
  have h100 : (0 : ℝ) ^ 2 + ((100 : ℝ) - 0) ^ 2 = 100 ^ 2 := by norm_num
  rw [h100, Real.sqrt_sq (by norm_num : (0 : ℝ) ≤ 100)]

lemma cex_track_dist : (cexGpx.tracks.map track_length_3d).sum = 100 := by
  simp only [cexGpx, List.map_cons, List.map_nil, List.sum_cons, List.sum_nil,
    track_length_3d, gpxpy_length_3d, List.zip_cons_cons, List.tail_cons,
    List.zip_nil_right, add_zero, zero_add]
  exact cex_dist

lemma cex_ascent : calculate_leaflet_elevation_ascent ([0, 100] : List ℝ) = 100 := by
  rw [calculate_leaflet_elevation_ascent, if_neg (by simp)]
  simp only [List.zip_cons_cons, List.tail_cons, List.zip_nil_right, List.map_cons,
    List.map_nil, List.foldl_cons, List.foldl_nil]
  rw [if_pos (by norm_num)]
  norm_num

lemma cex_eval :
    process_gpx_for_elevation cexGpx (fun _ _ => none) "leaflet_elevation" =
      .ok (100, 100) := by
  rw [process_gpx_for_elevation]
  rw [if_pos rfl]
  show Except.ok (((cexGpx.tracks.map track_length_3d).sum : ℝ),
      calculate_leaflet_elevation_ascent ([0, 100] : List ℝ)) = .ok (100, 100)
  rw [cex_track_dist, cex_ascent]

/-- Counterexample to C1 as stated: this GPX's returned distance is 100 m
(the 3-D length includes the elevation step) while the sum of GeoMath
haversine distances over the full point sequence is 0. -/
theorem claim_C1_counterexample :
    process_gpx_for_elevation cexGpx (fun _ _ => none) "leaflet_elevation" =
      .ok (100, 100) ∧
    geomath_distance_sum [((0 : ℝ), 0, 0), ((0 : ℝ), 0, 100)] = 0 ∧
    (100 : ℝ) ≠ 0 := by
  refine ⟨cex_eval, ?_, by norm_num⟩
  rw [geomath_distance_sum]
  simp only [List.zip_cons_cons, List.tail_cons, List.zip_nil_right, List.map_cons,
    List.map_nil, List.sum_cons, List.sum_nil, add_zero]
  exact haversine_distance_self 0 0

/-- Witness for C1: the amended theorem applied at the concrete GPX. -/
theorem claim_C1_witness :
    (100 : ℝ) = (cexGpx.tracks.map track_length_3d).sum :=
  (claim_C1 cexGpx (fun _ _ => none)).2 "leaflet_elevation" 100 100 cex_eval

end CyclingRoutes
